import Mathlib

/-!
Shallow embedding of the `matrix` crate: a dense row-major 2D container
(`src/matrix.rs`) with whole-matrix borrowed views (`src/slice.rs`,
`src/slicemut.rs`).

Modelling conventions:
* `Vec<T>` / `&[T]` become `List α`; machine `usize` becomes `Nat`
  (the spec treats dimensions as non-negative integers).
* A Rust operation that can panic is embedded as an `Option`-returning
  function; `none` models the panic, `some` the normal result.
* A mutable reference into the buffer is modelled by the flat index it
  points at; the single mutation primitive `write` models every
  element-level write path (`get_mut`, `iter_mut`, `data_mut`, ...),
  since a `&mut [T]` cannot change the buffer length.
-/

namespace Rust

/-- Rust `Iterator::step_by(s)` for `s ≥ 1` applied to the elements of a
list: yield the head, then skip `s - 1` elements and repeat.
(`step_by(0)` panics in Rust at the call itself; every caller in this
development guards that case before calling `stepBy`.) -/
def stepBy (s : Nat) : List α → List α
  | [] => []
  | x :: xs => x :: stepBy s (xs.drop (s - 1))
  termination_by l => l.length
  decreasing_by simp [List.length_drop]; omega

/-- Rust `slice::chunks(n)` for `n ≥ 1`: split into consecutive chunks of
length `n` (last chunk possibly shorter); an empty slice yields no chunks.
(`chunks(0)` panics in Rust at the call itself; every caller in this
development guards that case before calling `chunks`.) -/
def chunks (n : Nat) : List α → List (List α)
  | [] => []
  | x :: xs => (x :: xs).take n :: chunks n (xs.drop (n - 1))
  termination_by l => l.length
  decreasing_by simp [List.length_drop]; omega

/-- `struct Matrix<T> { rows: usize, cols: usize, data: Vec<T> }` -/
structure Matrix (α : Type u) where
  rows : Nat
  cols : Nat
  data : List α
deriving DecidableEq, Repr

namespace Matrix

/-- The representation invariant stated by the spec:
`buffer.length == rows * cols`. -/
def wellFormed (m : Matrix α) : Prop :=
  m.data.length = m.rows * m.cols

instance (m : Matrix α) : Decidable m.wellFormed := by
  unfold wellFormed; infer_instance

/-- `Matrix::new(rows, cols)`: `vec![T::default(); rows * cols]`. -/
def new (α : Type u) [Inhabited α] (rows cols : Nat) : Matrix α :=
  ⟨rows, cols, List.replicate (rows * cols) default⟩

/-- `Matrix::from_default(rows, cols, default)`: `vec![default; rows * cols]`. -/
def from_default (rows cols : Nat) (d : α) : Matrix α :=
  ⟨rows, cols, List.replicate (rows * cols) d⟩

/-- `Matrix::from_parts(rows, cols, data)` with
`assert!(rows * cols == data.len())`; `none` models the assertion failure. -/
def from_parts (rows cols : Nat) (data : List α) : Option (Matrix α) :=
  if rows * cols = data.length then some ⟨rows, cols, data⟩ else none

/-- `Matrix::get(row, col)`: bounds check against `rows`/`cols`, then read
the flat buffer at `row * cols + col` (the `get_unchecked` body). -/
def get (m : Matrix α) (row col : Nat) : Option α :=
  if row < m.rows ∧ col < m.cols then m.data[row * m.cols + col]?
  else none

/-- `Matrix::get_mut(row, col)`, with the mutable reference it returns
modelled as the flat buffer index it points at. -/
def get_mut_idx (m : Matrix α) (row col : Nat) : Option Nat :=
  if row < m.rows ∧ col < m.cols then some (row * m.cols + col)
  else none

/-- The `Index<(usize, usize)>` impl: `&self.data[row * self.cols + col]`.
Only the flat index is bounds-checked by the underlying slice; `none`
models that panic.  The `IndexMut` impl performs the same indexing. -/
def index (m : Matrix α) (row col : Nat) : Option α :=
  m.data[row * m.cols + col]?

/-- `Matrix::iter_rows`: `self.data.chunks(self.cols)`; `chunks(0)` panics. -/
def iter_rows (m : Matrix α) : Option (List (List α)) :=
  if m.cols = 0 then none else some (chunks m.cols m.data)

/-- `Matrix::iter_rows_mut`: `self.data.chunks_mut(self.cols)`, with each
mutable row-slice modelled as the list of flat indices it covers. -/
def iter_rows_mut_idx (m : Matrix α) : Option (List (List Nat)) :=
  if m.cols = 0 then none else some (chunks m.cols (List.range m.data.length))

/-- `Matrix::iter_row(row)`: `self.data[row*cols .. (row+1)*cols].iter()`.
The slice operation panics when the end bound exceeds the buffer length. -/
def iter_row (m : Matrix α) (row : Nat) : Option (List α) :=
  if (row + 1) * m.cols ≤ m.data.length then
    some (List.take ((row + 1) * m.cols - row * m.cols)
      (List.drop (row * m.cols) m.data))
  else none

/-- `Matrix::iter_col(col)`: `self.data.iter().skip(col).step_by(self.cols)`;
`step_by(0)` panics. -/
def iter_col (m : Matrix α) (col : Nat) : Option (List α) :=
  if m.cols = 0 then none else some (stepBy m.cols (m.data.drop col))

/-- `Matrix::iter_col_mut(col)`: same traversal with `iter_mut`, each
mutable reference modelled as the flat index it points at. -/
def iter_col_mut_idx (m : Matrix α) (col : Nat) : Option (List Nat) :=
  if m.cols = 0 then none
  else some (stepBy m.cols ((List.range m.data.length).drop col))

/-- `Matrix::clone_buffer`: `self.data.clone()`. -/
def clone_buffer (m : Matrix α) : List α :=
  m.data

/-- A single element write at flat index `i`, the effect on the buffer of
writing through `get_mut`, `iter_mut`, `iter_row_mut`, `iter_col_mut`,
`iter_rows_mut` or `data_mut` (a `&mut [T]` cannot change the length). -/
def write (m : Matrix α) (i : Nat) (v : α) : Matrix α :=
  ⟨m.rows, m.cols, m.data.set i v⟩

end Matrix

/-- `struct MatrixSlice<'a, T> { rows, cols, data: &'a [T] }` -/
structure MatrixSlice (α : Type u) where
  rows : Nat
  cols : Nat
  data : List α

namespace MatrixSlice

/-- `MatrixSlice::new(matrix)`: copies `rows()`, `cols()`, borrows `data()`. -/
def new (m : Matrix α) : MatrixSlice α :=
  ⟨m.rows, m.cols, m.data⟩

/-- `MatrixSlice::get(row, col)`: same bounds check and flat read as
`Matrix::get`. -/
def get (s : MatrixSlice α) (row col : Nat) : Option α :=
  if row < s.rows ∧ col < s.cols then s.data[row * s.cols + col]?
  else none

end MatrixSlice

/-- `struct MatrixSliceMut<'a, T> { rows, cols, data: &'a mut [T] }` -/
structure MatrixSliceMut (α : Type u) where
  rows : Nat
  cols : Nat
  data : List α

namespace MatrixSliceMut

/-- `MatrixSliceMut::new(matrix)`: copies `rows()`, `cols()`, borrows
`data_mut()`. -/
def new (m : Matrix α) : MatrixSliceMut α :=
  ⟨m.rows, m.cols, m.data⟩

/-- `MatrixSliceMut::get(row, col)`: same bounds check and flat read as
`Matrix::get`. -/
def get (s : MatrixSliceMut α) (row col : Nat) : Option α :=
  if row < s.rows ∧ col < s.cols then s.data[row * s.cols + col]?
  else none

end MatrixSliceMut

/-- `Matrix::as_slice`. -/
def Matrix.as_slice (m : Matrix α) : MatrixSlice α :=
  MatrixSlice.new m

/-- `Matrix::as_slice_mut`. -/
def Matrix.as_slice_mut (m : Matrix α) : MatrixSliceMut α :=
  MatrixSliceMut.new m

/-! ### Helper lemmas about `stepBy` and `chunks` -/

theorem stepBy_length (s : Nat) (hs : 0 < s) :
    ∀ l : List α, (stepBy s l).length = (l.length + s - 1) / s
  | [] => by
      simp [stepBy]
      exact (Nat.div_eq_of_lt (by omega)).symm
  | x :: xs => by
      rw [stepBy]
      simp only [List.length_cons]
      rw [stepBy_length s hs (xs.drop (s - 1)), List.length_drop]
      have h1 : xs.length + 1 + s - 1 = xs.length + s := by omega
      rcases le_or_lt (s - 1) xs.length with h | h
      · have h2 : xs.length - (s - 1) + s - 1 = xs.length := by omega
        rw [h1, h2, Nat.add_div_right _ hs]
      · have h2 : xs.length - (s - 1) = 0 := by omega
        rw [h1, h2, Nat.add_div_right _ hs,
          Nat.div_eq_of_lt (show 0 + s - 1 < s by omega),
          Nat.div_eq_of_lt (show xs.length < s by omega)]
  termination_by l => l.length
  decreasing_by simp [List.length_drop]; omega

theorem stepBy_getElem? (s : Nat) (hs : 0 < s) :
    ∀ (l : List α) (i : Nat), (stepBy s l)[i]? = l[i * s]?
  | [], i => by simp [stepBy]
  | x :: xs, 0 => by simp [stepBy]
  | x :: xs, i + 1 => by
      rw [stepBy]
      rw [List.getElem?_cons_succ, stepBy_getElem? s hs (xs.drop (s - 1)) i,
        List.getElem?_drop]
      have h1 : (i + 1) * s = s - 1 + i * s + 1 := by
        rw [Nat.succ_mul]; omega
      rw [h1, List.getElem?_cons_succ]
  termination_by l _ => l.length
  decreasing_by simp [List.length_drop]; omega

theorem chunks_cons_eq (n : Nat) (hn : 0 < n) (l : List α) (hl : l ≠ []) :
    chunks n l = l.take n :: chunks n (l.drop n) := by
  match l with
  | [] => exact absurd rfl hl
  | x :: xs =>
    rw [chunks]
    obtain ⟨k, rfl⟩ : ∃ k, n = k + 1 := ⟨n - 1, by omega⟩
    rw [List.drop_succ_cons]
    simp

theorem chunks_flatten (n : Nat) (hn : 0 < n) :
    ∀ l : List α, (chunks n l).flatten = l
  | [] => by simp [chunks]
  | x :: xs => by
      rw [chunks_cons_eq n hn _ (by simp), List.flatten_cons,
        chunks_flatten n hn ((x :: xs).drop n), List.take_append_drop]
  termination_by l => l.length
  decreasing_by simp [List.length_drop]; omega

theorem chunks_eq_map (n : Nat) (hn : 0 < n) :
    ∀ (r : Nat) (l : List α), l.length = r * n →
      chunks n l = (List.range r).map fun i => (l.drop (i * n)).take n := by
  intro r
  induction r with
  | zero =>
      intro l hl
      simp at hl
      simp [hl, chunks]
  | succ r ih =>
      intro l hl
      have hne : l ≠ [] := by
        intro h
        rw [h] at hl
        simp [Nat.succ_mul] at hl
        omega
      rw [chunks_cons_eq n hn l hne]
      have hdrop : (l.drop n).length = r * n := by
        rw [List.length_drop, hl, Nat.succ_mul]; omega
      rw [ih (l.drop n) hdrop, List.range_succ_eq_map, List.map_cons, List.map_map]
      congr 1
      · simp
      · apply List.map_congr_left
        intro i _
        have h2 : (i + 1) * n = n + i * n := by rw [Nat.succ_mul]; omega
        simp only [Function.comp_apply, List.drop_drop, h2]

/-! ### Arithmetic helpers -/

theorem col_div_exact (r c col : Nat) (hc : 0 < c) (hcol : col < c) :
    (r * c - col + c - 1) / c = r := by
  rcases Nat.eq_zero_or_pos r with rfl | hr
  · rw [Nat.zero_mul, Nat.zero_sub]
    rw [Nat.div_eq_of_lt (by omega)]
  · have h1 : c ≤ r * c := Nat.le_mul_of_pos_left c hr
    have h2 : r * c - col + c - 1 = c - 1 - col + r * c := by omega
    rw [h2, Nat.add_mul_div_right _ _ hc, Nat.div_eq_of_lt (by omega),
      Nat.zero_add]

theorem col_div_lt (r c col : Nat) (hc : 0 < c) (hcol : c ≤ col) (hr : 0 < r) :
    (r * c - col + c - 1) / c < r := by
  obtain ⟨k, rfl⟩ : ∃ k, r = k + 1 := ⟨r - 1, by omega⟩
  have h1 : (k + 1) * c = c * k + c := by rw [Nat.succ_mul, Nat.mul_comm]
  have hle : (k + 1) * c - col + c - 1 ≤ c * k + (c - 1) := by
    rw [h1]; omega
  have h2 : (c * k + (c - 1)) / c = k := by
    rw [Nat.mul_add_div hc, Nat.div_eq_of_lt (by omega), Nat.add_zero]
  have h3 : ((k + 1) * c - col + c - 1) / c ≤ (c * k + (c - 1)) / c :=
    Nat.div_le_div_right hle
  rw [h2] at h3
  omega

theorem flat_lt (rows cols r c : Nat) (hr : r < rows) (hc : c < cols) :
    r * cols + c < rows * cols :=
  calc r * cols + c < r * cols + cols := by omega
    _ = (r + 1) * cols := (Nat.succ_mul r cols).symm
    _ ≤ rows * cols := Nat.mul_le_mul_right cols hr

/-! ### Concrete matrices used by witnesses and counterexamples -/

/-- A concrete 2×3 matrix with buffer `[1, 2, 3, 4, 5, 6]`. -/
def mEx : Matrix Nat := ⟨2, 3, [1, 2, 3, 4, 5, 6]⟩

/-- A concrete matrix with `rows = 2`, `cols = 0` and an empty buffer. -/
def mZero : Matrix Nat := ⟨2, 0, []⟩

/-- A concrete empty matrix: `rows = 0`, `cols = 0`. -/
def mNil : Matrix Nat := ⟨0, 0, []⟩

/-! ### Claims -/

/-- C1: for a well-formed matrix, `get`/`get_mut` on in-range coordinates
`(r, c)` return `Some` of (a reference to) the buffer element at flat index
`r * cols + c` — which is a valid buffer index, so neither panics — and on
out-of-range coordinates both return `None`. -/
theorem get_get_mut_spec {α : Type u} (m : Matrix α) (r c : Nat)
    (hw : m.wellFormed) :
    (r < m.rows → c < m.cols →
      m.get r c = m.data[r * m.cols + c]? ∧
      (m.data[r * m.cols + c]?).isSome = true ∧
      m.get_mut_idx r c = some (r * m.cols + c) ∧
      r * m.cols + c < m.data.length) ∧
    (m.rows ≤ r ∨ m.cols ≤ c →
      m.get r c = none ∧ m.get_mut_idx r c = none) := by
  constructor
  · intro hr hc
    have hlt : r * m.cols + c < m.data.length := by
      rw [hw]; exact flat_lt m.rows m.cols r c hr hc
    refine ⟨?_, ?_, ?_, hlt⟩
    · rw [Matrix.get, if_pos ⟨hr, hc⟩]
    · rw [List.getElem?_eq_getElem hlt]; rfl
    · rw [Matrix.get_mut_idx, if_pos ⟨hr, hc⟩]
  · intro hout
    have hneg : ¬(r < m.rows ∧ c < m.cols) := by omega
    exact ⟨by rw [Matrix.get, if_neg hneg], by rw [Matrix.get_mut_idx, if_neg hneg]⟩

/-- C1 witness: the claim instantiated on the concrete 2×3 matrix, at the
in-range coordinate `(1, 2)` and the out-of-range coordinate `(2, 0)`. -/
theorem get_get_mut_spec_witness :
    (mEx.get 1 2 = mEx.data[1 * mEx.cols + 2]? ∧
      (mEx.data[1 * mEx.cols + 2]?).isSome = true ∧
      mEx.get_mut_idx 1 2 = some (1 * mEx.cols + 2) ∧
      1 * mEx.cols + 2 < mEx.data.length) ∧
    (mEx.get 2 0 = none ∧ mEx.get_mut_idx 2 0 = none) :=
  ⟨(get_get_mut_spec mEx 1 2 (by decide)).1 (by decide) (by decide),
   (get_get_mut_spec mEx 2 0 (by decide)).2 (Or.inl (by decide))⟩

/-- C2 counterexample: the claim says every out-of-range coordinate pair
panics under the indexing operator, but on the 2×3 matrix the coordinate
`(0, 3)` is out of range (`3 ≥ cols`) and `m[(0, 3)]` returns the buffer
element at flat index 3 (the value 4, logically at `(1, 0)`) instead of
panicking, while `get (0, 3)` returns `None`. -/
theorem index_spec_cex :
    mEx.wellFormed ∧ mEx.cols ≤ 3 ∧ mEx.index 0 3 = some 4 ∧
    mEx.get 0 3 = none := by decide

/-- C2 (amended): the indexing operator panics exactly when the flat index
`r * cols + c` falls outside the buffer; an out-of-range coordinate whose
flat index is still inside the buffer (possible when `c ≥ cols`) silently
returns the buffer element at that flat index, while `get` returns `None`
on every out-of-range coordinate. -/
theorem index_spec {α : Type u} (m : Matrix α) (r c : Nat)
    (hw : m.wellFormed) :
    (m.rows * m.cols ≤ r * m.cols + c → m.index r c = none) ∧
    (r * m.cols + c < m.rows * m.cols →
      (m.index r c).isSome = true ∧ m.index r c = m.data[r * m.cols + c]?) ∧
    (m.rows ≤ r ∨ m.cols ≤ c → m.get r c = none) := by
  refine ⟨?_, ?_, ?_⟩
  · intro h
    rw [Matrix.index, List.getElem?_eq_none]
    rw [hw]; exact h
  · intro h
    refine ⟨?_, rfl⟩
    have hlt : r * m.cols + c < m.data.length := by rw [hw]; exact h
    rw [Matrix.index, List.getElem?_eq_getElem hlt]; rfl
  · intro hout
    have hneg : ¬(r < m.rows ∧ c < m.cols) := by omega
    rw [Matrix.get, if_neg hneg]

/-- C2 amended-claim witness: instantiated on the concrete 2×3 matrix at
`(1, 5)` (flat index 8, out of the buffer: panic) and `(0, 3)` (flat index
3, inside the buffer: silent read; `get` still returns `None`). -/
theorem index_spec_witness :
    mEx.index 1 5 = none ∧
    ((mEx.index 0 3).isSome = true ∧ mEx.index 0 3 = mEx.data[0 * mEx.cols + 3]?) ∧
    mEx.get 0 3 = none :=
  ⟨(index_spec mEx 1 5 (by decide)).1 (by decide),
   (index_spec mEx 0 3 (by decide)).2.1 (by decide),
   (index_spec mEx 0 3 (by decide)).2.2 (Or.inr (by decide))⟩

/-- C3: `from_parts(rows, cols, data)` panics exactly when
`data.length ≠ rows * cols`, and when it succeeds the constructed matrix's
`clone_buffer()` is `data` itself, element for element. -/
theorem from_parts_spec {α : Type u} (rows cols : Nat) (d : List α) :
    (Matrix.from_parts rows cols d = none ↔ d.length ≠ rows * cols) ∧
    ∀ m : Matrix α, Matrix.from_parts rows cols d = some m →
      m.clone_buffer = d := by
  constructor
  · rw [Matrix.from_parts]
    split <;> rename_i h
    · simp only [false_iff, Ne, not_not]
      constructor
      · intro hc
        exact absurd hc (by simp)
      · omega
    · simp only [true_iff]
      omega
  · intro m hm
    rw [Matrix.from_parts] at hm
    split at hm
    · cases hm
      rfl
    · cases hm

/-- C3 witness: a length-5 buffer for a 2×3 matrix panics; the length-6
buffer is adopted and `clone_buffer` returns it unchanged. -/
theorem from_parts_spec_witness :
    (Matrix.from_parts 2 3 [1, 2, 3, 4, 5] = (none : Option (Matrix Nat))) ∧
    (Matrix.mk 2 3 [1, 2, 3, 4, 5, 6]).clone_buffer = [1, 2, 3, 4, 5, 6] :=
  ⟨(from_parts_spec 2 3 [1, 2, 3, 4, 5]).1.mpr (by decide),
   (from_parts_spec 2 3 [1, 2, 3, 4, 5, 6]).2 (Matrix.mk 2 3 [1, 2, 3, 4, 5, 6])
     (by decide)⟩

/-- C4: for a well-formed matrix with `cols > 0` and a column index
`c < cols`, `iter_col(c)` yields exactly `rows` elements, the `i`-th being
the buffer element at flat index `c + i * cols` (logical column `c` read
top-to-bottom), and `iter_col_mut(c)` yields exactly `rows` mutable
references, the `i`-th pointing at flat index `c + i * cols`. -/
theorem iter_col_spec {α : Type u} (m : Matrix α) (c : Nat) (hw : m.wellFormed)
    (hc0 : 0 < m.cols) (hc : c < m.cols) :
    ∃ l li, m.iter_col c = some l ∧ m.iter_col_mut_idx c = some li ∧
      l.length = m.rows ∧ li.length = m.rows ∧
      (∀ i, i < m.rows → l[i]? = m.data[c + i * m.cols]?) ∧
      (∀ i, i < m.rows → li[i]? = some (c + i * m.cols)) := by
  refine ⟨stepBy m.cols (m.data.drop c),
    stepBy m.cols ((List.range m.data.length).drop c), ?_, ?_, ?_, ?_, ?_, ?_⟩
  · rw [Matrix.iter_col, if_neg (by omega)]
  · rw [Matrix.iter_col_mut_idx, if_neg (by omega)]
  · rw [stepBy_length _ hc0, List.length_drop, hw,
      col_div_exact _ _ _ hc0 hc]
  · rw [stepBy_length _ hc0, List.length_drop, List.length_range, hw,
      col_div_exact _ _ _ hc0 hc]
  · intro i hi
    rw [stepBy_getElem? _ hc0, List.getElem?_drop]
  · intro i hi
    rw [stepBy_getElem? _ hc0, List.getElem?_drop]
    have hb : c + i * m.cols < m.data.length := by
      have := flat_lt m.rows m.cols i c hi hc
      rw [hw]; omega
    simp [List.getElem?_range, hb]

/-- C4 witness: the claim applied to the concrete 2×3 matrix at column 1,
with the per-index facts read off at `i = 0` and `i = 1`. -/
theorem iter_col_spec_witness :
    ∃ l li, mEx.iter_col 1 = some l ∧ mEx.iter_col_mut_idx 1 = some li ∧
      l.length = mEx.rows ∧ li.length = mEx.rows ∧
      l[0]? = mEx.data[1 + 0 * mEx.cols]? ∧ li[1]? = some (1 + 1 * mEx.cols) := by
  obtain ⟨l, li, h1, h2, h3, h4, h5, h6⟩ :=
    iter_col_spec mEx 1 (by decide) (by decide) (by decide)
  exact ⟨l, li, h1, h2, h3, h4, h5 0 (by decide), h6 1 (by decide)⟩

/-- C5 counterexample: the claim says `iter_col(c)` with `c ≥ cols` is a
fatal failure, but on the 2×3 matrix `iter_col(3)` does not panic: it
silently yields the one-element sequence `[4]` (not a panic, and not a
correct column either). -/
theorem iter_out_of_range_cex :
    mEx.wellFormed ∧ mEx.cols ≤ 3 ∧ mEx.iter_col 3 = some [4] := by
  refine ⟨by decide, by decide, ?_⟩
  simp [mEx, Matrix.iter_col, stepBy]

/-- C5 (amended): out-of-range row iteration is fatal whenever `cols > 0`
(when `cols = 0` it yields an empty sequence for every row index instead);
out-of-range column iteration is fatal only when `cols = 0` (where every
call panics because the stride is 0); when `cols > 0` and `c ≥ cols`,
`iter_col(c)` does not panic and silently yields a sequence of fewer than
`rows` elements (when `rows > 0`). -/
theorem iter_row_col_out_spec {α : Type u} (m : Matrix α) (r c : Nat)
    (hw : m.wellFormed) :
    (0 < m.cols → m.rows ≤ r → m.iter_row r = none) ∧
    (m.cols = 0 → m.iter_col c = none ∧ m.iter_row r = some []) ∧
    (0 < m.cols → m.cols ≤ c →
      ∃ l, m.iter_col c = some l ∧ (0 < m.rows → l.length < m.rows)) := by
  refine ⟨?_, ?_, ?_⟩
  · intro hc0 hr
    have h1 : (m.rows + 1) * m.cols ≤ (r + 1) * m.cols :=
      Nat.mul_le_mul_right m.cols (by omega)
    have h2 : (m.rows + 1) * m.cols = m.rows * m.cols + m.cols :=
      Nat.succ_mul m.rows m.cols
    rw [Matrix.iter_row, if_neg]
    rw [hw]; omega
  · intro h0
    constructor
    · rw [Matrix.iter_col, if_pos h0]
    · simp [Matrix.iter_row, h0]
  · intro hc0 hc
    refine ⟨stepBy m.cols (m.data.drop c), ?_, ?_⟩
    · rw [Matrix.iter_col, if_neg (by omega)]
    · intro hr
      rw [stepBy_length _ hc0, List.length_drop, hw]
      exact col_div_lt m.rows m.cols c hc0 hc hr

/-- C5 amended-claim witness: row index 5 on the 2×3 matrix panics; on the
2×0 matrix every column iteration panics and row iteration of row 3 yields
an empty sequence; column index 7 on the 2×3 matrix does not panic and
yields fewer than 2 elements. -/
theorem iter_row_col_out_spec_witness :
    mEx.iter_row 5 = none ∧
    (mZero.iter_col 0 = none ∧ mZero.iter_row 3 = some []) ∧
    (∃ l, mEx.iter_col 7 = some l ∧ (0 < mEx.rows → l.length < mEx.rows)) :=
  ⟨(iter_row_col_out_spec mEx 5 0 (by decide)).1 (by decide) (by decide),
   (iter_row_col_out_spec mZero 3 0 (by decide)).2.1 (by decide),
   (iter_row_col_out_spec mEx 0 7 (by decide)).2.2 (by decide) (by decide)⟩

/-- C6 counterexample: the claim covers every `cols ≥ 0`, but on the 2×0
matrix (empty buffer) `iter_rows()` panics (`chunks(0)`) instead of
yielding 2 empty slices. -/
theorem iter_rows_cex :
    mZero.wellFormed ∧ mZero.cols = 0 ∧ mZero.rows = 2 ∧
    mZero.iter_rows = none := by decide

/-- C6 (amended): for a well-formed matrix with `cols > 0`, `iter_rows()`
yields exactly `rows` slices, each of length exactly `cols`, the `i`-th
being buffer positions `i*cols .. (i+1)*cols`, and they concatenate back to
the original buffer in order; when `cols = 0`, `iter_rows()` panics even if
`rows = 0`. -/
theorem iter_rows_spec {α : Type u} (m : Matrix α) (hw : m.wellFormed)
    (hc : 0 < m.cols) :
    ∃ L, m.iter_rows = some L ∧
      L.length = m.rows ∧
      (∀ i, i < m.rows →
        L[i]? = some ((m.data.drop (i * m.cols)).take m.cols)) ∧
      (∀ row ∈ L, row.length = m.cols) ∧
      L.flatten = m.data := by
  have hmap := chunks_eq_map m.cols hc m.rows m.data hw
  refine ⟨chunks m.cols m.data, ?_, ?_, ?_, ?_, ?_⟩
  · rw [Matrix.iter_rows, if_neg (by omega)]
  · rw [hmap]; simp
  · intro i hi
    rw [hmap, List.getElem?_map]
    simp [List.getElem?_range, hi]
  · intro row hrow
    rw [hmap] at hrow
    obtain ⟨i, hi, rfl⟩ := List.mem_map.mp hrow
    rw [List.mem_range] at hi
    have h1 : (i + 1) * m.cols ≤ m.rows * m.cols :=
      Nat.mul_le_mul_right m.cols (by omega)
    have h2 : (i + 1) * m.cols = i * m.cols + m.cols := Nat.succ_mul i m.cols
    rw [List.length_take, List.length_drop, hw]
    omega
  · exact chunks_flatten m.cols hc m.data

/-- C6 amended-claim witness: the partition property applied to the concrete
2×3 matrix, with the per-index fact read off at `i = 1`. -/
theorem iter_rows_spec_witness :
    ∃ L, mEx.iter_rows = some L ∧ L.length = mEx.rows ∧
      L[1]? = some ((mEx.data.drop (1 * mEx.cols)).take mEx.cols) ∧
      L.flatten = mEx.data := by
  obtain ⟨L, h1, h2, h3, _, h5⟩ := iter_rows_spec mEx (by decide) (by decide)
  exact ⟨L, h1, h2, h3 1 (by decide), h5⟩

/-- C7: every construction path (`new`, `from_default`, and `from_parts`
when it does not panic) establishes `buffer.length = rows * cols`, and an
element write at any flat index — the effect of every mutating operation of
the public API — changes neither `rows`, `cols`, nor the buffer length, so
it preserves the invariant. -/
theorem invariant_spec {α : Type u} [Inhabited α] (rows cols : Nat)
    (d : List α) (v : α) (i : Nat) (m m' : Matrix α) :
    (Matrix.new α rows cols).wellFormed ∧
    (Matrix.from_default rows cols v).wellFormed ∧
    (Matrix.from_parts rows cols d = some m' → m'.wellFormed) ∧
    (m.wellFormed →
      (m.write i v).wellFormed ∧ (m.write i v).rows = m.rows ∧
      (m.write i v).cols = m.cols ∧
      (m.write i v).data.length = m.data.length) := by
  refine ⟨?_, ?_, ?_, ?_⟩
  · simp [Matrix.new, Matrix.wellFormed]
  · simp [Matrix.from_default, Matrix.wellFormed]
  · intro h
    rw [Matrix.from_parts] at h
    split at h
    · cases h
      simpa [Matrix.wellFormed] using by omega
    · cases h
  · intro hwf
    refine ⟨?_, rfl, rfl, ?_⟩
    · simpa [Matrix.write, Matrix.wellFormed] using hwf
    · simp [Matrix.write]

/-- C7 witness: the invariant facts instantiated on concrete inputs: a 2×3
`new` and `from_default`, the successful `from_parts` of the 2×3 example
matrix, and a write at flat index 4 of that matrix. -/
theorem invariant_spec_witness :
    (Matrix.new Nat 2 3).wellFormed ∧
    (Matrix.from_default 2 3 (7 : Nat)).wellFormed ∧
    mEx.wellFormed ∧
    ((mEx.write 4 9).wellFormed ∧ (mEx.write 4 9).rows = mEx.rows ∧
      (mEx.write 4 9).cols = mEx.cols ∧
      (mEx.write 4 9).data.length = mEx.data.length) :=
  ⟨(invariant_spec 2 3 [] 7 0 mEx mEx).1,
   (invariant_spec 2 3 [] 7 0 mEx mEx).2.1,
   (invariant_spec 2 3 [1, 2, 3, 4, 5, 6] 7 4 mEx mEx).2.2.1 (by decide),
   (invariant_spec 2 3 [] 9 4 mEx mEx).2.2.2 (by decide)⟩

/-- C8: the immutable view `as_slice()` and the mutable view
`as_slice_mut()` report the same `rows()` and `cols()` as the source matrix
and return the same `get(r, c)` result at every coordinate pair, at the
moment of construction. -/
theorem view_agreement {α : Type u} (m : Matrix α) (r c : Nat) :
    m.as_slice.rows = m.rows ∧ m.as_slice.cols = m.cols ∧
    m.as_slice.get r c = m.get r c ∧
    m.as_slice_mut.rows = m.rows ∧ m.as_slice_mut.cols = m.cols ∧
    m.as_slice_mut.get r c = m.get r c :=
  ⟨rfl, rfl, rfl, rfl, rfl, rfl⟩

/-- C9: `Matrix::new(rows, cols)` never fails; it reports the requested
dimensions, its buffer has length `rows * cols` and every cell holds the
element type's default value; a dimension of 0 yields an empty buffer. -/
theorem new_spec (α : Type u) [Inhabited α] (rows cols : Nat) :
    (Matrix.new α rows cols).rows = rows ∧
    (Matrix.new α rows cols).cols = cols ∧
    (Matrix.new α rows cols).data = List.replicate (rows * cols) default ∧
    (Matrix.new α rows cols).data.length = rows * cols ∧
    (∀ x ∈ (Matrix.new α rows cols).data, x = default) ∧
    (rows = 0 ∨ cols = 0 → (Matrix.new α rows cols).data = []) := by
  refine ⟨rfl, rfl, rfl, by simp [Matrix.new], ?_, ?_⟩
  · intro x hx
    exact List.eq_of_mem_replicate hx
  · rintro (rfl | rfl) <;> simp [Matrix.new]

/-- C9 witness: concrete instances — a 3×2 `new` over `Nat` has the right
dimensions and buffer length, its cell at flat index 0 is the default 0,
and a 0×2 `new` has an empty buffer. -/
theorem new_spec_witness :
    (Matrix.new Nat 3 2).rows = 3 ∧ (Matrix.new Nat 3 2).cols = 2 ∧
    (Matrix.new Nat 3 2).data.length = 3 * 2 ∧
    (Matrix.new Nat 0 2).data = [] := by
  refine ⟨(new_spec Nat 3 2).1, (new_spec Nat 3 2).2.1,
    (new_spec Nat 3 2).2.2.2.1, (new_spec Nat 0 2).2.2.2.2.2 (Or.inl rfl)⟩

/-- C10: on a matrix with `cols = 0`, `iter_col(c)` and `iter_col_mut(c)`
panic for every argument `c` (the stride handed to `step_by` is 0), and
`iter_rows()` / `iter_rows_mut()` panic as well (chunk size 0), even when
`rows = 0`. -/
theorem zero_cols_panic_spec {α : Type u} (m : Matrix α) (c : Nat)
    (h : m.cols = 0) :
    m.iter_col c = none ∧ m.iter_col_mut_idx c = none ∧
    m.iter_rows = none ∧ m.iter_rows_mut_idx = none := by
  refine ⟨?_, ?_, ?_, ?_⟩ <;>
    simp [Matrix.iter_col, Matrix.iter_col_mut_idx, Matrix.iter_rows,
      Matrix.iter_rows_mut_idx, h]

/-- C10 witness: the 0×0 matrix (so `rows = 0` too) with column argument 5:
all four iterator constructors panic. -/
theorem zero_cols_panic_spec_witness :
    mNil.iter_col 5 = none ∧ mNil.iter_col_mut_idx 5 = none ∧
    mNil.iter_rows = none ∧ mNil.iter_rows_mut_idx = none :=
  zero_cols_panic_spec mNil 5 rfl

end Rust
